import Mathlib

/-!
Verification development for the opti-llm semantic cache core.

The embedding follows the source files src/embedding.ts (classes
LocalEmbedding and OptiLLM) and src/qdrant.ts (class QdrantCache).
JavaScript numbers are modelled as rationals for the engine and the store
(timestamps in milliseconds, TTL and maxAge in seconds, similarity scores),
and as reals for the local embedding, whose normalization divides by a
square root.  External collaborators are explicit parameters: the embedding
provider is a function from text to a vector, the Qdrant scorer is a
function from two vectors to a score, Date.now() and uuidv4() are passed
in, and the producer is the Except value its invocation would yield.  The
vector store is a list of records, and search and delete are modelled
honoring the Qdrant filter contract the source relies on.
-/

/-- Scoping metadata of capture requests and of stored records
(types.ts, CaptureOptions.metadata).  The optional prompt field is the
extra key the engine adds when persisting, spreading the request metadata
and appending the prompt. -/
structure Metadata where
  provider : String
  model : String
  userId : Option String := none
  tenantId : Option String := none
  prompt : Option String := none
deriving DecidableEq, Repr

/-- The payload stored with a point (qdrant.ts, QdrantCache.store):
response text, metadata, creation time in ms, optional expiry time in ms. -/
structure Payload where
  response : String
  metadata : Metadata
  createdAt : ℚ
  expiresAt : Option ℚ := none
deriving DecidableEq, Repr

/-- One point of the Qdrant collection: id, vector and payload. -/
structure Record where
  id : String
  vector : List ℚ
  payload : Payload
deriving DecidableEq, Repr

/-- A search result as qdrant.ts maps it (types.ts, CachedResult). -/
structure CachedResult where
  id : String
  response : String
  score : ℚ
  metadata : Metadata
  createdAt : ℚ
deriving DecidableEq, Repr

/-- One Qdrant must clause of the shape match on a dotted payload key,
as capture builds it. -/
structure FilterClause where
  key : String
  value : String
deriving DecidableEq, Repr

/-- Payload field addressed by a dotted Qdrant key, for keyword match
clauses over the indexed metadata fields. -/
def Metadata.fieldValue (md : Metadata) : String → Option String
  | "metadata.provider" => some md.provider
  | "metadata.model" => some md.model
  | "metadata.userId" => md.userId
  | "metadata.tenantId" => md.tenantId
  | "metadata.prompt" => md.prompt
  | _ => none

/-- A match clause holds of a payload when the addressed field is present
and equals the clause value. -/
def clauseMatches (c : FilterClause) (p : Payload) : Bool :=
  p.metadata.fieldValue c.key == some c.value

/-- Qdrant must semantics: every clause holds.  The empty filter object
capture passes when no tenant scoping applies constrains nothing. -/
def filterMatches (f : List FilterClause) (p : Payload) : Bool :=
  f.all fun c => clauseMatches c p

/-- Mapping of a scored point to a CachedResult, as qdrant.ts search does:
a falsy (zero) stored createdAt is replaced by Date.now(). -/
def toCachedResult (now : ℚ) (score : ℚ) (r : Record) : CachedResult :=
  { id := r.id
    response := r.payload.response
    score := score
    metadata := r.payload.metadata
    createdAt := if r.payload.createdAt = 0 then now else r.payload.createdAt }

/-- Insertion step of the descending-by-score ordering the external index
returns results in. -/
def insertByScore (x : CachedResult) : List CachedResult → List CachedResult
  | [] => [x]
  | y :: ys => if y.score < x.score then x :: y :: ys else y :: insertByScore x ys

/-- Results ordered by descending score. -/
def sortByScoreDesc (l : List CachedResult) : List CachedResult :=
  l.foldr insertByScore []

/-- QdrantCache.search modelled against the vector store contract the
source relies on: the records passing the filter whose score (computed by
the external scorer, cosine in production) reaches the threshold, ordered
by descending score, truncated to the limit, mapped to CachedResult. -/
def QdrantCache.search (st : List Record) (vector : List ℚ) (limit : Nat)
    (scoreThreshold : ℚ) (filter : List FilterClause)
    (score : List ℚ → List ℚ → ℚ) (now : ℚ) : List CachedResult :=
  let hits := st.filter fun r =>
    filterMatches filter r.payload && decide (scoreThreshold ≤ score vector r.vector)
  (sortByScoreDesc (hits.map fun r => toCachedResult now (score vector r.vector) r)).take limit

/-- JavaScript truthiness of an optional number, as in the source tests
if (ttl) and if (!maxAge): an absent or zero value is falsy. -/
def numTruthy : Option ℚ → Bool
  | none => false
  | some q => q != 0

/-- QdrantCache.store: upsert of a fresh point with creation time now and,
when the ttl is truthy, an expiry of now plus ttl seconds in ms.  The
fresh uuid is the id parameter.  Returns the new store contents and the
id, as the source returns the id. -/
def QdrantCache.store (st : List Record) (id : String) (now : ℚ)
    (vector : List ℚ) (response : String) (metadata : Metadata)
    (ttl : Option ℚ) : List Record × String :=
  let payload : Payload :=
    { response := response
      metadata := metadata
      createdAt := now
      expiresAt := if numTruthy ttl then some (now + ttl.getD 0 * 1000) else none }
  (st ++ [{ id := id, vector := vector, payload := payload }], id)

/-- The delete filter of QdrantCache.cleanup, a must range clause lt now on
expiresAt: it selects records whose expiresAt is present and strictly
before now; a record without the field matches no range clause. -/
def expiresBefore (now : ℚ) (p : Payload) : Bool :=
  match p.expiresAt with
  | some e => decide (e < now)
  | none => false

/-- QdrantCache.cleanup: best-effort delete of strictly expired points.
A backend failure (backendOk false) is caught and logged by the source,
leaving the store as it was; no error reaches the caller either way. -/
def QdrantCache.cleanup (st : List Record) (now : ℚ) (backendOk : Bool) :
    List Record :=
  if backendOk then st.filter (fun r => !expiresBefore now r.payload) else st

/-- Per-call policy overrides (types.ts, CaptureOptions.policy). -/
structure Policy where
  maxAge : Option ℚ := none
  minSimilarity : Option ℚ := none
deriving DecidableEq, Repr

/-- A capture request (types.ts, CaptureOptions). -/
structure CaptureOptions where
  prompt : String
  metadata : Metadata
  policy : Option Policy := none
deriving DecidableEq, Repr

/-- The defaults the OptiLLM constructor merges into its configuration. -/
structure Config where
  defaultTTL : ℚ := 3600
  similarityThreshold : ℚ := 85 / 100
deriving DecidableEq, Repr

/-- JavaScript truthiness of an optional string, as in the source test
if (metadata.tenantId): an absent or empty value is falsy. -/
def strTruthy : Option String → Bool
  | none => false
  | some s => s != ""

/-- The scoping filter capture builds: a must match clause on the tenant
when the request tenantId is truthy, the empty filter otherwise. -/
def OptiLLM.buildFilter (md : Metadata) : List FilterClause :=
  if strTruthy md.tenantId then
    [{ key := "metadata.tenantId", value := md.tenantId.getD "" }]
  else []

/-- The similarity threshold capture resolves: the per-call minSimilarity
when given, else the configured default. -/
def OptiLLM.resolveThreshold (cfg : Config) (options : CaptureOptions) : ℚ :=
  (options.policy.bind Policy.minSimilarity).getD cfg.similarityThreshold

/-- The freshness bound capture resolves, also reused as the write TTL:
the per-call maxAge when given, else the configured defaultTTL. -/
def OptiLLM.resolveMaxAge (cfg : Config) (options : CaptureOptions) : ℚ :=
  (options.policy.bind Policy.maxAge).getD cfg.defaultTTL

/-- Hex digit of JSON.stringify control escapes. -/
def hexDigit (n : Nat) : Char :=
  if n < 10 then Char.ofNat (48 + n) else Char.ofNat (87 + n)

/-- JSON.stringify escaping of one character of a string value. -/
def jsonEscapeChar (c : Char) : String :=
  if c = '"' then "\\\""
  else if c = '\\' then "\\\\"
  else if c = Char.ofNat 8 then "\\b"
  else if c = Char.ofNat 9 then "\\t"
  else if c = Char.ofNat 10 then "\\n"
  else if c = Char.ofNat 12 then "\\f"
  else if c = Char.ofNat 13 then "\\r"
  else if c.toNat < 32 then
    "\\u00" ++ String.mk [hexDigit (c.toNat / 16), hexDigit (c.toNat % 16)]
  else String.mk [c]

/-- JSON.stringify of a string value: the quoted, escaped text.  This is
the serialization capture applies to the producer result before storing. -/
def jsonStringify (s : String) : String :=
  "\"" ++ String.join (s.data.map jsonEscapeChar) ++ "\""

/-- What capture returns to the caller (response, cached flag and the
cost_saved flag, which the miss branch leaves out). -/
structure CaptureResult where
  response : String
  cached : Bool
  cost_saved : Option Bool
deriving Repr

deriving instance DecidableEq for CaptureResult

/-- Full observable effect of one capture call: the returned value or the
propagated error, the final store contents and how many times the producer
ran. -/
structure CaptureOutcome where
  result : Except String CaptureResult
  finalStore : List Record
  producerCalls : Nat
deriving Repr

deriving instance DecidableEq for Except
deriving instance DecidableEq for CaptureOutcome

/-- The hit decision capture applies to the search results: the first
candidate is reused iff the resolved maxAge is falsy (zero) or the age in
seconds is strictly below it; otherwise the candidate is stale. -/
def OptiLLM.hitCandidate (cfg : Config) (options : CaptureOptions) (now : ℚ) :
    List CachedResult → Option CachedResult
  | [] => none
  | cached :: _ =>
    if OptiLLM.resolveMaxAge cfg options = 0 ∨
        (now - cached.createdAt) / 1000 < OptiLLM.resolveMaxAge cfg options then
      some cached
    else none

/-- Metadata as persisted on a miss: the request metadata spread with the
prompt added. -/
def OptiLLM.withPrompt (md : Metadata) (prompt : String) : Metadata :=
  { md with prompt := some prompt }

/-- OptiLLM.capture: embed the prompt, search under the scoping filter with
limit 1 and the resolved threshold, reuse a fresh candidate, otherwise run
the producer and persist its serialized result under the resolved TTL.  A
producer failure propagates and nothing is written. -/
def OptiLLM.capture (cfg : Config) (embed : String → List ℚ)
    (score : List ℚ → List ℚ → ℚ) (st : List Record) (now : ℚ) (newId : String)
    (options : CaptureOptions) (llmCall : Except String String) :
    CaptureOutcome :=
  match OptiLLM.hitCandidate cfg options now
      (QdrantCache.search st (embed options.prompt) 1
        (OptiLLM.resolveThreshold cfg options)
        (OptiLLM.buildFilter options.metadata) score now) with
  | some cached =>
    { result := .ok { response := cached.response, cached := true, cost_saved := some true }
      finalStore := st
      producerCalls := 0 }
  | none =>
    match llmCall with
    | .error e => { result := .error e, finalStore := st, producerCalls := 1 }
    | .ok response =>
      { result := .ok { response := response, cached := false, cost_saved := none }
        finalStore := (QdrantCache.store st newId now (embed options.prompt)
          (jsonStringify response) (OptiLLM.withPrompt options.metadata options.prompt)
          (some (OptiLLM.resolveMaxAge cfg options))).1
        producerCalls := 1 }

/-- Wrap of an integer into the signed 32-bit range, as the JavaScript
bitwise operations coerce their result. -/
def toInt32 (n : Int) : Int := (n + 2 ^ 31) % 2 ^ 32 - 2 ^ 31

/-- LocalEmbedding.simpleHash: per character, shift the hash left by five
bits, subtract the hash and add the character code, coercing to a 32-bit
integer at each step, then take the absolute value. -/
def simpleHash (s : String) : Nat :=
  (s.data.foldl (fun h c => toInt32 (toInt32 (32 * h) - h + c.toNat)) 0).natAbs

/-- Splitting of the lowercased character list into maximal runs of
non-whitespace characters, the accumulator holding the current run in
reverse.  This realizes the split on whitespace with empty tokens
discarded. -/
def wordsAux : List Char → List Char → List (List Char)
  | [], acc => if acc = [] then [] else [acc.reverse]
  | c :: cs, acc =>
    if c.isWhitespace then
      if acc = [] then wordsAux cs [] else acc.reverse :: wordsAux cs []
    else wordsAux cs (c :: acc)

/-- Tokenization of LocalEmbedding.embed: lowercase, split on whitespace,
keep only nonempty tokens. -/
def tokenize (text : String) : List String :=
  (wordsAux (text.data.map Char.toLower) []).map String.mk

/-- Increment of the accumulator vector at a bucket; an out-of-range index
leaves the vector unchanged (impossible for a positive dimension). -/
def incAt : List Nat → Nat → List Nat
  | [], _ => []
  | x :: xs, 0 => (x + 1) :: xs
  | x :: xs, n + 1 => x :: incAt xs n

/-- The token-count accumulator of LocalEmbedding.embed: starting from a
zero vector of the configured length, each token increments the bucket its
hash selects modulo the dimension. -/
def accumulate (dim : Nat) (tokens : List String) : List Nat :=
  tokens.foldl (fun v t => incAt v (simpleHash t % dim)) (List.replicate dim 0)

/-- Sum of squares reduce as the source writes it. -/
def sumSq (v : List ℝ) : ℝ := v.foldl (fun sum x => sum + x * x) 0

/-- Euclidean norm of a vector. -/
noncomputable def euclNorm (v : List ℝ) : ℝ := Real.sqrt (sumSq v)

/-- LocalEmbedding.embed with real arithmetic standing for JavaScript
doubles: accumulate token counts, then divide every component by the
Euclidean norm exactly when the norm is positive. -/
noncomputable def LocalEmbedding.embed (dim : Nat) (text : String) : List ℝ :=
  let vector : List ℝ := (accumulate dim (tokenize text)).map (fun n : ℕ => (n : ℝ))
  let norm := euclNorm vector
  if 0 < norm then vector.map (fun v => v / norm) else vector

/-- Concrete scorer of the witnesses: the dot product, which is the cosine
similarity of unit vectors. -/
def dot : List ℚ → List ℚ → ℚ :=
  fun v w => (List.zipWith (fun a b => a * b) v w).sum

/-- Concrete embedding provider of the witnesses: a constant unit vector,
making every pair of prompts maximally similar. -/
def embed1 : String → List ℚ := fun _ => [1]

/-- Concrete metadata without a tenant. -/
def md0 : Metadata := { provider := "openai", model := "gpt-4o-mini" }

/-- Concrete metadata of tenant a. -/
def mdA : Metadata := { md0 with tenantId := some "a" }

/-- Concrete metadata of tenant b. -/
def mdB : Metadata := { md0 with tenantId := some "b" }

/-- Concrete metadata whose tenantId is present but empty. -/
def mdEmpty : Metadata := { md0 with tenantId := some "" }

/-- Concrete stored record without a tenant, created at 1000 ms. -/
def rec0 : Record :=
  { id := "r1", vector := [1]
    payload := { response := "cachedResp", metadata := md0, createdAt := 1000 } }

/-- Concrete stored record of tenant a. -/
def recA : Record :=
  { id := "ra", vector := [1]
    payload := { response := "asecret", metadata := mdA, createdAt := 1000 } }

/-- Concrete stored record of tenant b. -/
def recB : Record :=
  { id := "rb", vector := [1]
    payload := { response := "bsecret", metadata := mdB, createdAt := 1000 } }

/-- Concrete record carrying an expiry time of 100 ms. -/
def recExp : Record :=
  { id := "re", vector := [1]
    payload := { response := "r", metadata := md0, createdAt := 50, expiresAt := some 100 } }

/-- Concrete capture request without a tenant. -/
def opts0 : CaptureOptions := { prompt := "hello", metadata := md0 }

/-- Concrete capture request whose tenantId is present but empty. -/
def optsEmpty : CaptureOptions := { prompt := "hello", metadata := mdEmpty }

/-- Concrete capture request of the round-trip scenario. -/
def optsF : CaptureOptions :=
  { prompt := "What is the capital of France?", metadata := md0 }

/-- The search result the fresh-hit and stale witnesses expect. -/
def r0 : CachedResult :=
  { id := "r1", response := "cachedResp", score := 1, metadata := md0, createdAt := 1000 }

/-- Membership in an insertion step comes from the inserted element or the
original list. -/
theorem mem_insertByScore {x y : CachedResult} {l : List CachedResult}
    (h : y ∈ insertByScore x l) : y = x ∨ y ∈ l := by
  induction l with
  | nil => simpa [insertByScore] using h
  | cons z zs ih =>
    by_cases hc : z.score < x.score
    · rw [insertByScore, if_pos hc] at h
      simpa [List.mem_cons, or_assoc] using h
    · rw [insertByScore, if_neg hc] at h
      rcases List.mem_cons.mp h with h | h
      · exact Or.inr (List.mem_cons.mpr (Or.inl h))
      · rcases ih h with h | h
        · exact Or.inl h
        · exact Or.inr (List.mem_cons_of_mem z h)

/-- Ordering by score preserves membership. -/
theorem mem_sortByScoreDesc {y : CachedResult} {l : List CachedResult}
    (h : y ∈ sortByScoreDesc l) : y ∈ l := by
  induction l with
  | nil => simp [sortByScoreDesc] at h
  | cons z zs ih =>
    rw [sortByScoreDesc, List.foldr_cons] at h
    rcases mem_insertByScore h with h | h
    · exact h ▸ List.mem_cons_self z zs
    · exact List.mem_cons_of_mem z (ih h)

/-- Every search result comes from a stored record that passes the filter. -/
theorem mem_search {st : List Record} {vector : List ℚ} {limit : Nat}
    {θ : ℚ} {filter : List FilterClause} {score : List ℚ → List ℚ → ℚ}
    {now : ℚ} {res : CachedResult}
    (h : res ∈ QdrantCache.search st vector limit θ filter score now) :
    ∃ r ∈ st, filterMatches filter r.payload = true ∧
      res = toCachedResult now (score vector r.vector) r := by
  unfold QdrantCache.search at h
  have h1 := mem_sortByScoreDesc (List.mem_of_mem_take h)
  obtain ⟨r, hr, hres⟩ := List.mem_map.mp h1
  obtain ⟨hrst, hcond⟩ := List.mem_filter.mp hr
  exact ⟨r, hrst, (Bool.and_eq_true _ _).mp hcond |>.1, hres.symm⟩

/-- C1: when the scoped search returns a candidate (necessarily at or above
the resolved threshold) and the resolved maxAge (per-call maxAge if
present, else the configured defaultTTL) is zero — the falsy case standing
for unset-or-zero — or the age of the candidate is strictly below it,
capture returns the cached payload with cached true and cost_saved true,
leaves the store unchanged and never runs the producer: the outcome is
the same for every producer value. -/
theorem capture_fresh_hit (cfg : Config) (embed : String → List ℚ)
    (score : List ℚ → List ℚ → ℚ) (st : List Record) (now : ℚ) (newId : String)
    (options : CaptureOptions) (llmCall : Except String String)
    (r : CachedResult) (rest : List CachedResult)
    (hsearch : QdrantCache.search st (embed options.prompt) 1
        (OptiLLM.resolveThreshold cfg options)
        (OptiLLM.buildFilter options.metadata) score now = r :: rest)
    (hfresh : OptiLLM.resolveMaxAge cfg options = 0 ∨
        (now - r.createdAt) / 1000 < OptiLLM.resolveMaxAge cfg options) :
    OptiLLM.capture cfg embed score st now newId options llmCall =
      { result := .ok { response := r.response, cached := true, cost_saved := some true }
        finalStore := st
        producerCalls := 0 } := by
  have hc : OptiLLM.hitCandidate cfg options now (r :: rest) = some r := by
    show (if OptiLLM.resolveMaxAge cfg options = 0 ∨
        (now - r.createdAt) / 1000 < OptiLLM.resolveMaxAge cfg options then
      some r else none) = some r
    exact if_pos hfresh
  unfold OptiLLM.capture
  rw [hsearch, hc]

/-- Witness of C1 at concrete input: one fresh record of age five seconds,
default configuration, a producer that would fail if it ran. -/
theorem capture_fresh_hit_witness :
    (QdrantCache.search [rec0] (embed1 opts0.prompt) 1
        (OptiLLM.resolveThreshold {} opts0)
        (OptiLLM.buildFilter opts0.metadata) dot 6000 = r0 :: []) ∧
    (OptiLLM.resolveMaxAge {} opts0 = 0 ∨
        ((6000 : ℚ) - r0.createdAt) / 1000 < OptiLLM.resolveMaxAge {} opts0) ∧
    OptiLLM.capture {} embed1 dot [rec0] 6000 "n0" opts0 (.error "down") =
      { result := .ok { response := "cachedResp", cached := true, cost_saved := some true }
        finalStore := [rec0]
        producerCalls := 0 } :=
  ⟨by norm_num [QdrantCache.search, OptiLLM.resolveThreshold, OptiLLM.buildFilter, strTruthy,
      dot, embed1, filterMatches, toCachedResult, sortByScoreDesc, insertByScore,
      rec0, r0, md0, opts0, List.filter],
   Or.inr (by norm_num [OptiLLM.resolveMaxAge, opts0, r0]),
   capture_fresh_hit {} embed1 dot [rec0] 6000 "n0" opts0 (.error "down") r0 []
     (by norm_num [QdrantCache.search, OptiLLM.resolveThreshold, OptiLLM.buildFilter, strTruthy,
        dot, embed1, filterMatches, toCachedResult, sortByScoreDesc, insertByScore,
        rec0, r0, md0, opts0, List.filter])
     (Or.inr (by norm_num [OptiLLM.resolveMaxAge, opts0, r0]))⟩

/-- C2: when the search returns a candidate but its age reaches the
resolved non-zero maxAge, capture treats it as stale: the result is the
producer value with cached false, the producer runs exactly once, and
exactly one new record is appended to the store. -/
theorem capture_stale_miss (cfg : Config) (embed : String → List ℚ)
    (score : List ℚ → List ℚ → ℚ) (st : List Record) (now : ℚ) (newId : String)
    (options : CaptureOptions) (p : String)
    (r : CachedResult) (rest : List CachedResult)
    (hsearch : QdrantCache.search st (embed options.prompt) 1
        (OptiLLM.resolveThreshold cfg options)
        (OptiLLM.buildFilter options.metadata) score now = r :: rest)
    (hmax : OptiLLM.resolveMaxAge cfg options ≠ 0)
    (hstale : OptiLLM.resolveMaxAge cfg options ≤ (now - r.createdAt) / 1000) :
    OptiLLM.capture cfg embed score st now newId options (.ok p) =
      { result := .ok { response := p, cached := false, cost_saved := none }
        finalStore := (QdrantCache.store st newId now (embed options.prompt)
          (jsonStringify p) (OptiLLM.withPrompt options.metadata options.prompt)
          (some (OptiLLM.resolveMaxAge cfg options))).1
        producerCalls := 1 } ∧
    ∃ newRec, (QdrantCache.store st newId now (embed options.prompt)
          (jsonStringify p) (OptiLLM.withPrompt options.metadata options.prompt)
          (some (OptiLLM.resolveMaxAge cfg options))).1 = st ++ [newRec] := by
  have hc : OptiLLM.hitCandidate cfg options now (r :: rest) = none := by
    show (if OptiLLM.resolveMaxAge cfg options = 0 ∨
        (now - r.createdAt) / 1000 < OptiLLM.resolveMaxAge cfg options then
      some r else none) = none
    rw [if_neg]
    rintro (h | h)
    · exact hmax h
    · exact absurd hstale (not_le.mpr h)
  constructor
  · unfold OptiLLM.capture
    rw [hsearch, hc]
  · exact ⟨_, rfl⟩

/-- Witness of C2 at concrete input: the record of the C1 witness queried
at age exactly 3600 s, the default maxAge, so the candidate is stale. -/
theorem capture_stale_miss_witness :
    (QdrantCache.search [rec0] (embed1 opts0.prompt) 1
        (OptiLLM.resolveThreshold {} opts0)
        (OptiLLM.buildFilter opts0.metadata) dot 3601000 = r0 :: []) ∧
    (OptiLLM.resolveMaxAge {} opts0 ≠ 0) ∧
    (OptiLLM.resolveMaxAge {} opts0 ≤ ((3601000 : ℚ) - r0.createdAt) / 1000) ∧
    (OptiLLM.capture {} embed1 dot [rec0] 3601000 "n2" opts0 (.ok "fresh") =
      { result := .ok { response := "fresh", cached := false, cost_saved := none }
        finalStore := (QdrantCache.store [rec0] "n2" 3601000 (embed1 opts0.prompt)
          (jsonStringify "fresh") (OptiLLM.withPrompt opts0.metadata opts0.prompt)
          (some (OptiLLM.resolveMaxAge {} opts0))).1
        producerCalls := 1 } ∧
     ∃ newRec, (QdrantCache.store [rec0] "n2" 3601000 (embed1 opts0.prompt)
          (jsonStringify "fresh") (OptiLLM.withPrompt opts0.metadata opts0.prompt)
          (some (OptiLLM.resolveMaxAge {} opts0))).1 = [rec0] ++ [newRec]) :=
  ⟨by norm_num [QdrantCache.search, OptiLLM.resolveThreshold, OptiLLM.buildFilter, strTruthy,
      dot, embed1, filterMatches, toCachedResult, sortByScoreDesc, insertByScore,
      rec0, r0, md0, opts0, List.filter],
   by norm_num [OptiLLM.resolveMaxAge, opts0],
   by norm_num [OptiLLM.resolveMaxAge, opts0, r0],
   capture_stale_miss {} embed1 dot [rec0] 3601000 "n2" opts0 "fresh" r0 []
     (by norm_num [QdrantCache.search, OptiLLM.resolveThreshold, OptiLLM.buildFilter, strTruthy,
        dot, embed1, filterMatches, toCachedResult, sortByScoreDesc, insertByScore,
        rec0, r0, md0, opts0, List.filter])
     (by norm_num [OptiLLM.resolveMaxAge, opts0])
     (by norm_num [OptiLLM.resolveMaxAge, opts0, r0])⟩

/-- C5: on a miss (no candidate survives the hit decision) with a failing
producer, capture propagates exactly that error, the producer has run
once, and the store is exactly what it was: nothing is written. -/
theorem capture_producer_error (cfg : Config) (embed : String → List ℚ)
    (score : List ℚ → List ℚ → ℚ) (st : List Record) (now : ℚ) (newId : String)
    (options : CaptureOptions) (e : String)
    (hmiss : OptiLLM.hitCandidate cfg options now
      (QdrantCache.search st (embed options.prompt) 1
        (OptiLLM.resolveThreshold cfg options)
        (OptiLLM.buildFilter options.metadata) score now) = none) :
    OptiLLM.capture cfg embed score st now newId options (.error e) =
      { result := .error e, finalStore := st, producerCalls := 1 } := by
  unfold OptiLLM.capture
  rw [hmiss]

/-- Witness of C5 at concrete input: an empty store, so the search returns
nothing and the miss path runs a failing producer. -/
theorem capture_producer_error_witness :
    (OptiLLM.hitCandidate {} opts0 0
      (QdrantCache.search [] (embed1 opts0.prompt) 1
        (OptiLLM.resolveThreshold {} opts0)
        (OptiLLM.buildFilter opts0.metadata) dot 0) = none) ∧
    OptiLLM.capture {} embed1 dot [] 0 "n5" opts0 (.error "boom") =
      { result := .error "boom", finalStore := [], producerCalls := 1 } :=
  ⟨by simp [OptiLLM.hitCandidate, QdrantCache.search, sortByScoreDesc, List.filter],
   capture_producer_error {} embed1 dot [] 0 "n5" opts0 "boom"
     (by simp [OptiLLM.hitCandidate, QdrantCache.search, sortByScoreDesc, List.filter])⟩

/-- C4: the round-trip fails in the source.  A miss stores the
JSON-serialized producer result (capture passes JSON.stringify(response)
to the store) but a later hit returns the stored string itself, never
parsing it: with producer result Paris the hit returns the quoted text,
which differs from Paris.  The declared return type of capture promises
the producer type back, so the hit branch contradicts the declaration;
the worked example of the documentation expects Paris. -/
theorem capture_roundtrip_bug :
    (OptiLLM.capture {} embed1 dot [] 0 "p1" optsF (.ok "Paris")).result =
      .ok { response := "Paris", cached := false, cost_saved := none } ∧
    (OptiLLM.capture {} embed1 dot
        (OptiLLM.capture {} embed1 dot [] 0 "p1" optsF (.ok "Paris")).finalStore
        5000 "p2" optsF (.ok "unused")).result =
      .ok { response := "\"Paris\"", cached := true, cost_saved := some true } ∧
    ("\"Paris\"" : String) ≠ "Paris" := by
  refine ⟨?_, ?_, by decide⟩
  · norm_num [OptiLLM.capture, OptiLLM.hitCandidate, OptiLLM.resolveThreshold,
      OptiLLM.resolveMaxAge, OptiLLM.buildFilter, strTruthy, QdrantCache.search,
      QdrantCache.store, dot, embed1, filterMatches, toCachedResult, sortByScoreDesc,
      insertByScore, optsF, md0, List.filter]
  · norm_num [OptiLLM.capture, OptiLLM.hitCandidate, OptiLLM.resolveThreshold,
      OptiLLM.resolveMaxAge, OptiLLM.buildFilter, OptiLLM.withPrompt, strTruthy,
      QdrantCache.search, QdrantCache.store, dot, embed1, filterMatches, clauseMatches,
      toCachedResult, sortByScoreDesc, insertByScore, optsF, md0, numTruthy,
      jsonStringify, jsonEscapeChar, hexDigit, List.filter]
    decide

/-- C10: a capture without a tenantId searches unscoped.  First, every
metadata whose tenantId is absent builds the empty filter, and the empty
filter accepts every payload, so the search is unconstrained.  Second, at
a concrete input, a capture without a tenant is served the cached record
a tenant-a capture had written. -/
theorem capture_no_tenant_unscoped :
    (∀ (provider model : String) (userId prompt : Option String),
      OptiLLM.buildFilter
        { provider := provider, model := model, userId := userId,
          tenantId := none, prompt := prompt } = []) ∧
    (∀ p : Payload, filterMatches [] p = true) ∧
    OptiLLM.capture {} embed1 dot [recA] 1000 "n7" opts0 (.ok "x") =
      { result := .ok { response := "asecret", cached := true, cost_saved := some true }
        finalStore := [recA]
        producerCalls := 0 } := by
  refine ⟨fun _ _ _ _ => rfl, fun p => rfl, ?_⟩
  norm_num [OptiLLM.capture, OptiLLM.hitCandidate, OptiLLM.resolveThreshold,
    OptiLLM.resolveMaxAge, OptiLLM.buildFilter, strTruthy, QdrantCache.search,
    dot, embed1, filterMatches, toCachedResult, sortByScoreDesc, insertByScore,
    recA, mdA, md0, opts0, List.filter]

/-- C3 counterexample: an empty-string tenantId is present, yet its
capture reads the record stored under tenantId b.  The source only builds
the scoping clause when metadata.tenantId is truthy, so the present value
of the empty string disables scoping for the lookup, refuting the claim
for the tenant pair of the empty string and b. -/
theorem capture_tenant_leak :
    optsEmpty.metadata.tenantId = some "" ∧
    recB.payload.metadata.tenantId = some "b" ∧
    OptiLLM.capture {} embed1 dot [recB] 1000 "n1" optsEmpty (.ok "x") =
      { result := .ok { response := "bsecret", cached := true, cost_saved := some true }
        finalStore := [recB]
        producerCalls := 0 } := by
  refine ⟨rfl, rfl, ?_⟩
  norm_num [OptiLLM.capture, OptiLLM.hitCandidate, OptiLLM.resolveThreshold,
    OptiLLM.resolveMaxAge, OptiLLM.buildFilter, strTruthy, QdrantCache.search,
    dot, embed1, filterMatches, toCachedResult, sortByScoreDesc, insertByScore,
    recB, mdB, mdEmpty, md0, optsEmpty, List.filter]

/-- C3 (amended): for non-empty tenant identifiers the isolation holds.
When the request metadata carries a non-empty tenantId b, every result of
the search capture performs under the filter built from that metadata
carries tenantId b, so a record stored with a different tenantId a is
never returned. -/
theorem capture_tenant_isolation (st : List Record) (vector : List ℚ)
    (limit : Nat) (θ : ℚ) (score : List ℚ → List ℚ → ℚ) (now : ℚ)
    (md : Metadata) (A B : String) (hmd : md.tenantId = some B)
    (hB : B ≠ "") (hAB : A ≠ B) :
    ∀ res ∈ QdrantCache.search st vector limit θ
        (OptiLLM.buildFilter md) score now,
      res.metadata.tenantId ≠ some A := by
  intro res hres hA
  obtain ⟨r, hrst, hfm, hres⟩ := mem_search hres
  have hfilter : OptiLLM.buildFilter md =
      [{ key := "metadata.tenantId", value := B }] := by
    unfold OptiLLM.buildFilter
    rw [hmd]
    simp [strTruthy, hB]
  rw [hfilter] at hfm
  simp only [filterMatches, List.all_cons, List.all_nil, Bool.and_true,
    clauseMatches, Metadata.fieldValue, beq_iff_eq] at hfm
  have hmeta : res.metadata = r.payload.metadata := by rw [hres]; rfl
  rw [hmeta, hfm] at hA
  exact hAB (Option.some.inj hA).symm

/-- Witness of C3 at concrete input: the lookup of tenant b over a store
holding one record of tenant a returns no result carrying tenant a. -/
theorem capture_tenant_isolation_witness :
    (mdB.tenantId = some "b" ∧ "b" ≠ "" ∧ "a" ≠ "b") ∧
    ∀ res ∈ QdrantCache.search [recA] [1] 1 (85 / 100)
        (OptiLLM.buildFilter mdB) dot 1000,
      res.metadata.tenantId ≠ some "a" :=
  ⟨⟨rfl, by decide, by decide⟩,
   capture_tenant_isolation [recA] [1] 1 (85 / 100) dot 1000 mdB "a" "b"
     rfl (by decide) (by decide)⟩

/-- C6 counterexample: the record whose expiresAt equals now survives the
sweep, though the claim requires every record with expiresAt at or below
now to be removed.  The source delete filter is a strict range lt now. -/
theorem cleanup_boundary_kept :
    recExp.payload.expiresAt = some 100 ∧
    QdrantCache.cleanup [recExp] 100 true = [recExp] := by
  refine ⟨rfl, ?_⟩
  norm_num [QdrantCache.cleanup, expiresBefore, recExp, List.filter]

/-- C6 (amended): the sweep at time now removes exactly the records whose
expiresAt is strictly below now; every other record, including every
record without an expiresAt, stays; and a backend failure is swallowed,
leaving the store unchanged, so no failure reaches the caller. -/
theorem cleanup_exact (st : List Record) (now : ℚ) :
    (∀ r, r ∈ QdrantCache.cleanup st now true ↔
      (r ∈ st ∧ ∀ e, r.payload.expiresAt = some e → now ≤ e)) ∧
    QdrantCache.cleanup st now false = st := by
  have htrue : QdrantCache.cleanup st now true =
      st.filter (fun r => !expiresBefore now r.payload) := rfl
  refine ⟨fun r => ?_, rfl⟩
  rw [htrue, List.mem_filter]
  constructor
  · rintro ⟨hmem, hb⟩
    refine ⟨hmem, fun e he => ?_⟩
    rw [Bool.not_eq_true'] at hb
    unfold expiresBefore at hb
    rw [he] at hb
    exact le_of_not_lt (of_decide_eq_false hb)
  · rintro ⟨hmem, hall⟩
    refine ⟨hmem, ?_⟩
    rw [Bool.not_eq_true']
    unfold expiresBefore
    cases hx : r.payload.expiresAt with
    | none => rfl
    | some e => exact decide_eq_false (not_lt.mpr (hall e hx))

/-- C7 counterexample: a store call with the supplied TTL of zero leaves
expiresAt unset, though the claim requires expiresAt to be the write time
plus the TTL whenever one is supplied: the source guards the assignment
with the truthiness of ttl. -/
theorem store_zero_ttl :
    (QdrantCache.store [] "s0" 7 [1] "resp" md0 (some 0)).1 =
      [{ id := "s0", vector := [1]
         payload := { response := "resp", metadata := md0, createdAt := 7,
                      expiresAt := none } }] := by
  norm_num [QdrantCache.store, numTruthy]

/-- C7 (amended): every store call appends exactly one record, whose
createdAt is the write time; its expiresAt is the write time plus the TTL
in ms exactly when the supplied TTL is non-zero and is unset when the TTL
is absent or zero; and whenever the TTL is positive the expiry lies
strictly after createdAt. -/
theorem store_expiry (st : List Record) (id : String) (now : ℚ)
    (vector : List ℚ) (response : String) (metadata : Metadata)
    (ttl : Option ℚ) :
    ∃ r, (QdrantCache.store st id now vector response metadata ttl).1 = st ++ [r] ∧
      r.payload.createdAt = now ∧
      ((ttl = none ∨ ttl = some 0) → r.payload.expiresAt = none) ∧
      (∀ t, ttl = some t → t ≠ 0 →
        r.payload.expiresAt = some (now + t * 1000)) ∧
      (∀ t, ttl = some t → 0 < t →
        ∀ e, r.payload.expiresAt = some e → r.payload.createdAt < e) := by
  refine ⟨_, rfl, rfl, ?_, ?_, ?_⟩
  · rintro (rfl | rfl) <;> simp [numTruthy]
  · rintro t rfl ht
    simp [numTruthy, ht]
  · rintro t rfl ht e he
    simp only [numTruthy, bne_iff_ne, ne_eq, ht.ne', not_false_eq_true, if_true,
      Option.getD_some, Option.some.injEq] at he
    subst he
    show now < now + t * 1000
    nlinarith

/-- Incrementing a bucket preserves the vector length. -/
theorem incAt_length (v : List Nat) (n : Nat) : (incAt v n).length = v.length := by
  induction v generalizing n with
  | nil => rfl
  | cons x xs ih =>
    cases n with
    | zero => rfl
    | succ m => simp [incAt, ih]

/-- The accumulator keeps the configured length. -/
theorem accumulate_length (dim : Nat) (tokens : List String) :
    (accumulate dim tokens).length = dim := by
  unfold accumulate
  suffices h : ∀ v : List Nat,
      (tokens.foldl (fun w t => incAt w (simpleHash t % dim)) v).length = v.length by
    rw [h]
    exact List.length_replicate dim 0
  intro v
  induction tokens generalizing v with
  | nil => rfl
  | cons t ts ih => rw [List.foldl_cons, ih, incAt_length]

/-- C8: for every configured dimension and every input text, the local
embedding returns a vector of exactly that length, on the normalized and
on the zero branch alike. -/
theorem embed_length (dim : Nat) (text : String) :
    (LocalEmbedding.embed dim text).length = dim := by
  simp only [LocalEmbedding.embed]
  split
  · rw [List.length_map, List.length_map, accumulate_length]
  · rw [List.length_map, accumulate_length]

/-- The sum-of-squares reduce from any accumulator value. -/
theorem foldl_add_sq (v : List ℝ) (a : ℝ) :
    v.foldl (fun s x => s + x * x) a = a + (v.map (fun x => x * x)).sum := by
  induction v generalizing a with
  | nil => simp
  | cons x xs ih =>
    rw [List.foldl_cons, ih, List.map_cons, List.sum_cons]
    ring

/-- The sum-of-squares reduce equals the sum of the squares. -/
theorem sumSq_eq (v : List ℝ) : sumSq v = (v.map (fun x => x * x)).sum := by
  have h := foldl_add_sq v 0
  rw [zero_add] at h
  exact h

/-- A sum of squares is nonnegative. -/
theorem sumSq_nonneg (v : List ℝ) : 0 ≤ sumSq v := by
  rw [sumSq_eq]
  refine List.sum_nonneg fun x hx => ?_
  obtain ⟨y, _, rfl⟩ := List.mem_map.mp hx
  exact mul_self_nonneg y

/-- Incrementing a bucket in range raises the total count by one. -/
theorem incAt_sum (v : List Nat) (n : Nat) (h : n < v.length) :
    (incAt v n).sum = v.sum + 1 := by
  induction v generalizing n with
  | nil => simp at h
  | cons x xs ih =>
    cases n with
    | zero =>
      simp only [incAt, List.sum_cons]
      omega
    | succ m =>
      have hm : m < xs.length := by simpa using h
      simp only [incAt, List.sum_cons, ih m hm]
      omega

/-- For a positive dimension the accumulator total equals the token count:
every token lands in a bucket in range. -/
theorem accumulate_sum (dim : Nat) (hdim : 0 < dim) (tokens : List String) :
    (accumulate dim tokens).sum = tokens.length := by
  unfold accumulate
  suffices h : ∀ v : List Nat, v.length = dim →
      (tokens.foldl (fun w t => incAt w (simpleHash t % dim)) v).sum =
        v.sum + tokens.length by
    rw [h (List.replicate dim 0) (List.length_replicate dim 0), List.sum_replicate]
    simp
  induction tokens with
  | nil => intro v _; simp
  | cons t ts ih =>
    intro v hv
    rw [List.foldl_cons, ih (incAt v (simpleHash t % dim)) (by rw [incAt_length, hv]),
      incAt_sum v _ (by rw [hv]; exact Nat.mod_lt _ hdim), List.length_cons]
    omega

/-- C9: the local embedding of a text without tokens is the all-zero
vector, and for a text with tokens (and the positive dimension every
deployment configures; the constructor default is 384) the output has
Euclidean norm exactly one, the real-number rendering of the
floating-point property: the accumulator is divided by its norm exactly
when the norm is non-zero. -/
theorem embed_zero_or_unit (dim : Nat) (text : String) :
    (tokenize text = [] → LocalEmbedding.embed dim text = List.replicate dim 0) ∧
    (tokenize text ≠ [] → 0 < dim →
      euclNorm (LocalEmbedding.embed dim text) = 1) := by
  constructor
  · intro htok
    have hvec : (accumulate dim (tokenize text)).map (fun n : ℕ => (n : ℝ)) =
        List.replicate dim (0 : ℝ) := by
      rw [htok]
      show (List.replicate dim 0).map (fun n : ℕ => (n : ℝ)) = _
      rw [List.map_replicate, Nat.cast_zero]
    have hnorm : euclNorm (List.replicate dim (0 : ℝ)) = 0 := by
      unfold euclNorm
      rw [sumSq_eq, List.map_replicate, mul_zero, List.sum_replicate, smul_zero,
        Real.sqrt_zero]
    simp only [LocalEmbedding.embed, hvec, hnorm, lt_self_iff_false, if_false]
  · intro htok hdim
    have hsum : (accumulate dim (tokenize text)).sum = (tokenize text).length :=
      accumulate_sum dim hdim (tokenize text)
    have hlen : 0 < (tokenize text).length := List.length_pos.mpr htok
    obtain ⟨c, hc, hcpos⟩ : ∃ c ∈ accumulate dim (tokenize text), 0 < c := by
      by_contra hcon
      push_neg at hcon
      have hzero : (accumulate dim (tokenize text)).sum = 0 :=
        List.sum_eq_zero fun x hx => Nat.le_zero.mp (hcon x hx)
      omega
    have hS : 0 < sumSq ((accumulate dim (tokenize text)).map (fun n : ℕ => (n : ℝ))) := by
      rw [sumSq_eq]
      have hmem : ((c : ℝ) * (c : ℝ)) ∈
          (((accumulate dim (tokenize text)).map (fun n : ℕ => (n : ℝ))).map
            (fun x => x * x)) := by
        rw [List.map_map]
        exact List.mem_map.mpr ⟨c, hc, rfl⟩
      have hnn : ∀ x ∈ (((accumulate dim (tokenize text)).map (fun n : ℕ => (n : ℝ))).map
          (fun x => x * x)), (0 : ℝ) ≤ x := by
        intro x hx
        obtain ⟨y, _, rfl⟩ := List.mem_map.mp hx
        exact mul_self_nonneg y
      have hle := List.single_le_sum hnn _ hmem
      have hcpos2 : (0 : ℝ) < (c : ℝ) * (c : ℝ) := by
        have : (0 : ℝ) < (c : ℝ) := Nat.cast_pos.mpr hcpos
        exact mul_pos this this
      linarith
    have hnormpos : 0 < euclNorm ((accumulate dim (tokenize text)).map (fun n : ℕ => (n : ℝ))) :=
      Real.sqrt_pos.mpr hS
    simp only [LocalEmbedding.embed, if_pos hnormpos]
    have hfun : ((fun x => x * x) ∘ fun v =>
        v / euclNorm ((accumulate dim (tokenize text)).map (fun n : ℕ => (n : ℝ)))) =
        fun x => (x * x) *
          (euclNorm ((accumulate dim (tokenize text)).map (fun n : ℕ => (n : ℝ))) *
           euclNorm ((accumulate dim (tokenize text)).map (fun n : ℕ => (n : ℝ))))⁻¹ := by
      funext x
      rw [Function.comp_apply, div_mul_div_comm, div_eq_mul_inv]
    have hself : euclNorm ((accumulate dim (tokenize text)).map (fun n : ℕ => (n : ℝ))) *
        euclNorm ((accumulate dim (tokenize text)).map (fun n : ℕ => (n : ℝ))) =
        sumSq ((accumulate dim (tokenize text)).map (fun n : ℕ => (n : ℝ))) :=
      Real.mul_self_sqrt hS.le
    have key : sumSq (((accumulate dim (tokenize text)).map (fun n : ℕ => (n : ℝ))).map
        (fun v => v / euclNorm ((accumulate dim (tokenize text)).map (fun n : ℕ => (n : ℝ))))) =
        1 := by
      rw [sumSq_eq, List.map_map, hfun, List.sum_map_mul_right, ← sumSq_eq, hself,
        mul_inv_cancel₀ hS.ne']
    show Real.sqrt (sumSq (((accumulate dim (tokenize text)).map (fun n : ℕ => (n : ℝ))).map
      (fun v => v / euclNorm ((accumulate dim (tokenize text)).map (fun n : ℕ => (n : ℝ)))))) = 1
    rw [key, Real.sqrt_one]
